import Mathlib

/-!
Shallow embedding of `theanets/activations.py`.

Python strings are modelled as lists of characters, Python dicts of keyword
arguments as association lists, and the tensor values handled by the
activation functions as lists of real numbers (one feature row; the last
axis of a tensor, which is the only axis the module ever reduces over).

The registry machinery `util.Registrar` is imported by the source file but
its code is not part of the repository snapshot; its behaviour (canonical
key = type name lowercased, extra alias keys, case-insensitive lookup,
`UnknownActivationError` on a missing key) is modelled from the spec.
Everything else is translated directly from `activations.py`.
-/

/-- Python strings, modelled as lists of characters. -/
abbrev PyString := List Char

/-- The characters of a Lean string literal, used to write Python string constants. -/
def chars (s : String) : PyString := s.data

/-- The single-quote character, used by Python `repr` of a string. -/
def squote : Char := Char.ofNat 39

/-- One constructor per `Activation` subclass defined in `activations.py`. -/
inductive ActKind where
  | linear
  | tanh
  | logistic
  | softmax
  | softplus
  | relu
  | rectmax
  | truncatedrelu
  | normmean
  | normmax
  | normstd
  | normz
deriving DecidableEq

/-- Modelled from the spec: the error taxonomy of §7 (`UnknownActivationError`,
`DuplicateKeyError`, `EmptySegmentError`).  The source itself names none of
these classes; theorems below establish which of them the code can actually
produce. -/
inductive BuildError where
  | unknownActivation (key : PyString)
  | duplicateKey (key : PyString)
  | emptySegment
deriving DecidableEq

/-- Modelled from the spec: the registry that `util.Registrar` populates at class
definition time.  Each subclass registers under its type name lowercased plus the
aliases it declares in `__extra_registration_keys__` (the keys themselves are read
off the source file). -/
def registryTable : List (PyString × ActKind) :=
  [ (chars "linear", .linear)
  , (chars "tanh", .tanh)
  , (chars "logistic", .logistic)
  , (chars "sigmoid", .logistic)
  , (chars "softmax", .softmax)
  , (chars "softplus", .softplus)
  , (chars "relu", .relu)
  , (chars "rect:min", .relu)
  , (chars "rectmax", .rectmax)
  , (chars "rect:max", .rectmax)
  , (chars "truncatedrelu", .truncatedrelu)
  , (chars "trelu", .truncatedrelu)
  , (chars "rect:minmax", .truncatedrelu)
  , (chars "normmean", .normmean)
  , (chars "norm:mean", .normmean)
  , (chars "normmax", .normmax)
  , (chars "norm:max", .normmax)
  , (chars "normstd", .normstd)
  , (chars "norm:std", .normstd)
  , (chars "normz", .normz)
  , (chars "norm:z", .normz) ]

/-- Modelled from the spec: case-insensitive registry lookup; `none` models a
lookup that raises `UnknownActivationError`. -/
def lookup (key : PyString) : Option ActKind :=
  (registryTable.find? (fun e => e.1 = key.map Char.toLower)).map (fun e => e.2)

/-- Keyword arguments (`**kwargs`), modelled as an association list with opaque
string values. -/
abbrev Kwargs := List (PyString × PyString)

/-- An `Activation` instance.  `kind` records which subclass the object belongs
to; `__init__` stores the supplied `name` and `kwargs` and sets `params = []`. -/
structure Activation where
  kind : ActKind
  name : PyString
  kwargs : Kwargs
  params : List Unit
deriving DecidableEq

/-- `Activation.build(key, name=key, **kwargs)`: the registry dispatch (modelled
from the spec) followed by `Activation.__init__` (from the source: stores the
name and kwargs, sets `params = []`). -/
def activationBuild (key : PyString) (kwargs : Kwargs) : Except BuildError Activation :=
  match lookup key with
  | some k => .ok { kind := k, name := key, kwargs := kwargs, params := [] }
  | none => .error (.unknownActivation key)

/-- A value returned by `build`: either an `Activation` instance, or the bare
lambda produced by `compose` — `comp f g` is `compose(f, g)`, the function
`z ↦ g(f(z))` carrying only a synthesised `name` attribute. -/
inductive Callable where
  | act (a : Activation)
  | comp (f g : Callable)
deriving DecidableEq

/-- The Python value held by a `name` attribute: an `Activation`'s name is a
plain string, while `compose` assigns a one-element *list* of strings. -/
inductive PyVal where
  | s (v : PyString)
  | l (v : List PyString)
deriving DecidableEq

/-- Python `repr` of a list of strings (as used by `'%s' % some_list`): elements
in single quotes, comma-separated, in square brackets.  The names this module
builds never contain quote or escape characters, so simple quoting is exact. -/
def listRepr (vs : List PyString) : PyString :=
  '[' :: List.intercalate (chars ", ") (vs.map (fun v => squote :: v ++ [squote])) ++ [']']

/-- Python `'%s' % v`: a string formats as itself, a list via its `repr`. -/
def pyFormat : PyVal → PyString
  | .s v => v
  | .l vs => listRepr vs

/-- The `name` attribute of a `build` result.  `compose(a, b)` sets
`c.name = ['%s(%s)' % (b.name, a.name)]` — a one-element list. -/
def Callable.pyname : Callable → PyVal
  | .act a => .s a.name
  | .comp f g => .l [pyFormat g.pyname ++ '(' :: pyFormat f.pyname ++ [')']]

/-- Reading `.params` on a `build` result: present (always `[]`) on an
`Activation` instance, absent (`none`, an `AttributeError`) on a composed
lambda, which carries only a `name` attribute. -/
def Callable.paramsAttr : Callable → Option (List Unit)
  | .act a => some a.params
  | .comp _ _ => none

/-- Reading `.kwargs` on a `build` result: present on an `Activation` instance,
absent on a composed lambda. -/
def Callable.kwargsAttr : Callable → Option Kwargs
  | .act a => some a.kwargs
  | .comp _ _ => none

/-- Python `name.split('+')`, character by character. -/
def splitP : List Char → List (List Char)
  | [] => [[]]
  | c :: t =>
    let r := splitP t
    if c = '+' then [] :: r
    else
      match r with
      | [] => [[c]]
      | h :: rest => (c :: h) :: rest

/-- The items of the generator `(build(n) for n in name.split('+'))`, consumed
left to right; the first segment whose lookup fails raises, exactly as the
generator would when `reduce` pulls from it. -/
def mapBuild : List PyString → Except BuildError (List Activation)
  | [] => .ok []
  | n :: t =>
    match activationBuild n [] with
    | .error e => .error e
    | .ok a =>
      match mapBuild t with
      | .error e => .error e
      | .ok r => .ok (a :: r)

/-- `functools.reduce(compose, items)` on a non-empty item list: fold the tail
onto the head with `compose` (left fold, first item applied first). -/
def reduceCompose (a : Callable) (rest : List Callable) : Callable :=
  rest.foldl (fun f g => Callable.comp f g) a

/-- The string branches of `build`: if the name contains `'+'`, split on `'+'`,
build every segment with no kwargs and reduce with `compose`; otherwise
`Activation.build(name, name=name, **kwargs)`.  (`reduce` over an empty
sequence would raise in Python, but `split` always returns at least one
segment, so that branch is unreachable.) -/
def buildStr (name : PyString) (kwargs : Kwargs) : Except BuildError Callable :=
  if '+' ∈ name then
    match mapBuild (splitP name) with
    | .error e => .error e
    | .ok [] => .error (.unknownActivation name)
    | .ok (a :: rest) => .ok (reduceCompose (.act a) (rest.map Callable.act))
  else
    match activationBuild name kwargs with
    | .error e => .error e
    | .ok a => .ok (.act a)

/-- The argument of `build`: an already-built `Activation` instance or a string. -/
inductive BuildArg where
  | inst (a : Activation)
  | str (s : PyString)

/-- The factory `build(name, **kwargs)`: an instance is returned unchanged
(any kwargs are ignored); a string goes through the string branches. -/
def build : BuildArg → Kwargs → Except BuildError Callable
  | .inst a, _ => .ok (.act a)
  | .str s, kw => buildStr s kw

/-- The segment names `build` resolves for a given spec string: the `'+'`-split
parts when a `'+'` is present, otherwise the whole string. -/
def segmentsOf (s : PyString) : List PyString :=
  if '+' ∈ s then splitP s else [s]

/-- All `Activation` instances inside a `build` result were constructed with
empty keyword configuration. -/
def Callable.noConfig : Callable → Bool
  | .act a => a.kwargs.isEmpty
  | .comp f g => f.noConfig && g.noConfig

/-- A tensor value: one feature row (the last axis, the only axis this module
reduces over). -/
abbrev Tensor := List ℝ

/-- The stabilising constant `TT.cast(1e-6, FLOAT)`. -/
noncomputable def epsR : ℝ := 1 / 1000000

/-- `x.max(axis=-1)` over the modelled row (undefined on an empty row, where
Theano would raise; `0` is a junk value there). -/
noncomputable def listMax : List ℝ → ℝ
  | [] => 0
  | a :: t => t.foldl max a

/-- `x.mean(axis=-1)` over the modelled row. -/
noncomputable def listMean (x : List ℝ) : ℝ := x.sum / x.length

/-- `x.std(axis=-1)` over the modelled row (Theano's default: population
standard deviation, no degrees-of-freedom correction). -/
noncomputable def listStd (x : List ℝ) : ℝ :=
  Real.sqrt (listMean (x.map (fun v => (v - listMean x) ^ 2)))

/-- The `__call__` of each `Activation` subclass, translated line by line from
the source; `keepdims=True` reductions broadcast the row statistic back over
the row. -/
noncomputable def ActKind.eval : ActKind → Tensor → Tensor
  | .linear, x => x
  | .tanh, x => x.map Real.tanh
  | .logistic, x => x.map (fun v => 1 / (1 + Real.exp (-v)))
  | .softmax, x =>
    let z := x.map (fun v => Real.exp (v - listMax x))
    z.map (fun v => v / z.sum)
  | .softplus, x => x.map (fun v => Real.log (1 + Real.exp v))
  | .relu, x => x.map (fun v => (v + |v|) / 2)
  | .rectmax, x => x.map (fun v => (1 + v - |v - 1|) / 2)
  | .truncatedrelu, x => x.map (fun v => (1 + |v| - |v - 1|) / 2)
  | .normmean, x => x.map (fun v => v - listMean x)
  | .normmax, x => x.map (fun v => v / (listMax (x.map (fun w => |w|)) + epsR))
  | .normstd, x => x.map (fun v => v / (listStd x + epsR))
  | .normz, x => x.map (fun v => (v - listMean x) / (listStd x + epsR))

/-- Calling a `build` result on a tensor: an instance runs its `__call__`; a
composed lambda `compose(f, g)` runs `z ↦ g(f(z))`. -/
noncomputable def Callable.eval : Callable → Tensor → Tensor
  | .act a, x => a.kind.eval x
  | .comp f g, x => g.eval (f.eval x)

/-- `build(s)(x)` for a string spec with no extra kwargs; `none` when `build`
raises. -/
noncomputable def buildEval (s : PyString) (x : Tensor) : Option Tensor :=
  match buildStr s [] with
  | .ok c => some (c.eval x)
  | .error _ => none

/-- The formula the spec's table gives for `softmax`:
`exp(x - max(x, axis=-1)) / sum(exp(x - max(x, axis=-1)), axis=-1)` with
`keepdims` semantics.  Modelled from the spec, to be compared with the
source's `Softmax.__call__`. -/
noncomputable def softmaxSpec (x : Tensor) : Tensor :=
  (x.map (fun v => Real.exp (v - listMax x))).map
    (fun z => z / (x.map (fun v => Real.exp (v - listMax x))).sum)

deriving instance DecidableEq for Except

/-- The instance `build` constructs for the spec string `"relu"`. -/
def reluAct : Activation :=
  { kind := .relu, name := chars "relu", kwargs := [], params := [] }

/-- The instance `build` constructs for the spec string `"tanh"`. -/
def tanhAct : Activation :=
  { kind := .tanh, name := chars "tanh", kwargs := [], params := [] }

/-- The instance `build` constructs for the spec string `"softmax"`. -/
def softmaxAct : Activation :=
  { kind := .softmax, name := chars "softmax", kwargs := [], params := [] }

/-! Helper lemmas about splitting, the registry, and the fold. -/

theorem splitP_ne_nil (l : List Char) : splitP l ≠ [] := by
  induction l with
  | nil => simp [splitP]
  | cons c t ih =>
    simp only [splitP]
    split
    · simp
    · split
      · simp
      · simp

theorem splitP_no_plus : ∀ {l : List Char}, '+' ∉ l → splitP l = [l] := by
  intro l h
  induction l with
  | nil => rfl
  | cons c t ih =>
    have hc : ¬ c = '+' := fun e => h (by simp [e])
    have ht : '+' ∉ t := fun m => h (List.mem_cons_of_mem c m)
    simp only [splitP, if_neg hc, ih ht]

theorem splitP_append (a r : List Char) (h : '+' ∉ a) :
    splitP (a ++ '+' :: r) = a :: splitP r := by
  induction a with
  | nil => simp [splitP]
  | cons c t ih =>
    have hc : ¬ c = '+' := fun e => h (by simp [e])
    have ht : '+' ∉ t := fun m => h (List.mem_cons_of_mem c m)
    simp only [List.cons_append, splitP, if_neg hc, List.append_eq]
    rw [ih ht]

theorem lookup_no_plus {k : PyString} {v : ActKind} (h : lookup k = some v) : '+' ∉ k := by
  intro hm
  unfold lookup at h
  cases hfind : registryTable.find? (fun e => e.1 = k.map Char.toLower) with
  | none => rw [hfind] at h; simp at h
  | some e =>
    have hp := List.find?_some hfind
    have hmem := List.mem_of_find?_eq_some hfind
    simp only [decide_eq_true_eq] at hp
    have hlow : '+' ∈ k.map Char.toLower := by
      have htl : Char.toLower '+' = '+' := by decide
      exact htl ▸ List.mem_map_of_mem Char.toLower hm
    rw [← hp] at hlow
    have hall : ∀ x ∈ registryTable, '+' ∉ x.1 := by decide
    exact hall e hmem hlow

theorem mapBuild_err : ∀ {l : List PyString}, (∃ n ∈ l, lookup n = none) →
    ∃ k, mapBuild l = .error (.unknownActivation k) ∧ lookup k = none := by
  intro l h
  induction l with
  | nil => simp at h
  | cons n t ih =>
    cases hn : lookup n with
    | none =>
      refine ⟨n, ?_, hn⟩
      simp [mapBuild, activationBuild, hn]
    | some v =>
      have ht : ∃ m ∈ t, lookup m = none := by
        rcases h with ⟨m, hm, hlm⟩
        rcases List.mem_cons.mp hm with rfl | hmt
        · rw [hn] at hlm; exact absurd hlm (by simp)
        · exact ⟨m, hmt, hlm⟩
      rcases ih ht with ⟨k, hk, hlk⟩
      exact ⟨k, by simp [mapBuild, activationBuild, hn, hk], hlk⟩

theorem mapBuild_length : ∀ {l : List PyString} {as : List Activation},
    mapBuild l = .ok as → as.length = l.length := by
  intro l
  induction l with
  | nil =>
    intro as h
    simp only [mapBuild, Except.ok.injEq] at h
    simp [← h]
  | cons n t ih =>
    intro as h
    simp only [mapBuild] at h
    cases hb : activationBuild n [] with
    | error e => rw [hb] at h; exact absurd h (by simp)
    | ok a =>
      rw [hb] at h
      cases hm : mapBuild t with
      | error e => rw [hm] at h; exact absurd h (by simp)
      | ok r =>
        rw [hm] at h
        simp only [Except.ok.injEq] at h
        rw [← h]
        simp [ih hm]

theorem mapBuild_kwargs : ∀ {l : List PyString} {as : List Activation},
    mapBuild l = .ok as → ∀ a ∈ as, a.kwargs = [] := by
  intro l
  induction l with
  | nil =>
    intro as h a ha
    simp only [mapBuild, Except.ok.injEq] at h
    rw [← h] at ha
    exact absurd ha (by simp)
  | cons n t ih =>
    intro as h a ha
    simp only [mapBuild] at h
    cases hn : lookup n with
    | none => rw [show activationBuild n [] = .error (.unknownActivation n) by
                simp [activationBuild, hn]] at h
              exact absurd h (by simp)
    | some v =>
      rw [show activationBuild n [] = .ok { kind := v, name := n, kwargs := [], params := [] } by
        simp [activationBuild, hn]] at h
      cases hm : mapBuild t with
      | error e => rw [hm] at h; exact absurd h (by simp)
      | ok r =>
        rw [hm] at h
        simp only [Except.ok.injEq] at h
        rw [← h] at ha
        rcases List.mem_cons.mp ha with rfl | har
        · rfl
        · exact ih hm a har

theorem splitP_two_le {s : List Char} (h : '+' ∈ s) : 2 ≤ (splitP s).length := by
  induction s with
  | nil => simp at h
  | cons c t ih =>
    simp only [splitP]
    by_cases hc : c = '+'
    · rw [if_pos hc]
      have h1 : 0 < (splitP t).length := List.length_pos.mpr (splitP_ne_nil t)
      simp only [List.length_cons]
      omega
    · rw [if_neg hc]
      have ht : '+' ∈ t := by
        rcases List.mem_cons.mp h with rfl | h'
        · exact absurd rfl hc
        · exact h'
      have h2 := ih ht
      cases hr : splitP t with
      | nil => exact absurd hr (splitP_ne_nil t)
      | cons hh rr =>
        rw [hr] at h2
        simp only [List.length_cons] at h2 ⊢
        omega

theorem reduceCompose_comp_attrs : ∀ (l : List Callable) (f g : Callable),
    (reduceCompose (.comp f g) l).paramsAttr = none ∧
    (reduceCompose (.comp f g) l).kwargsAttr = none := by
  intro l
  induction l with
  | nil => intro f g; exact ⟨rfl, rfl⟩
  | cons c t ih =>
    intro f g
    simpa [reduceCompose, List.foldl] using ih (.comp f g) c

theorem reduceCompose_noConfig : ∀ (l : List Callable) (a : Callable),
    a.noConfig = true → (∀ c ∈ l, c.noConfig = true) →
    (reduceCompose a l).noConfig = true := by
  intro l
  induction l with
  | nil => intro a ha _; exact ha
  | cons c t ih =>
    intro a ha hl
    have hc := hl c (List.mem_cons_self c t)
    have hac : (Callable.comp a c).noConfig = true := by
      simp [Callable.noConfig, ha, hc]
    have := ih (.comp a c) hac (fun d hd => hl d (List.mem_cons_of_mem c hd))
    simpa [reduceCompose, List.foldl] using this

theorem buildStr_single {a : PyString} {ka : ActKind} (ha : lookup a = some ka)
    (kw : Kwargs) :
    buildStr a kw = .ok (.act { kind := ka, name := a, kwargs := kw, params := [] }) := by
  have hpa := lookup_no_plus ha
  unfold buildStr
  rw [if_neg hpa]
  simp [activationBuild, ha]

theorem buildStr_two {a b : PyString} {ka kb : ActKind}
    (ha : lookup a = some ka) (hb : lookup b = some kb) (kw : Kwargs) :
    buildStr (a ++ '+' :: b) kw =
      .ok (.comp (.act { kind := ka, name := a, kwargs := [], params := [] })
                 (.act { kind := kb, name := b, kwargs := [], params := [] })) := by
  have hpa := lookup_no_plus ha
  have hpb := lookup_no_plus hb
  have hplus : '+' ∈ a ++ '+' :: b := by simp
  unfold buildStr
  rw [if_pos hplus, splitP_append a _ hpa, splitP_no_plus hpb]
  simp [mapBuild, activationBuild, ha, hb, reduceCompose]

theorem buildStr_three {a b c : PyString} {ka kb kc : ActKind}
    (ha : lookup a = some ka) (hb : lookup b = some kb) (hc : lookup c = some kc)
    (kw : Kwargs) :
    buildStr (a ++ '+' :: (b ++ '+' :: c)) kw =
      .ok (.comp (.comp (.act { kind := ka, name := a, kwargs := [], params := [] })
                        (.act { kind := kb, name := b, kwargs := [], params := [] }))
                 (.act { kind := kc, name := c, kwargs := [], params := [] })) := by
  have hpa := lookup_no_plus ha
  have hpb := lookup_no_plus hb
  have hpc := lookup_no_plus hc
  have hplus : '+' ∈ a ++ '+' :: (b ++ '+' :: c) := by simp
  unfold buildStr
  rw [if_pos hplus, splitP_append a _ hpa, splitP_append b _ hpb, splitP_no_plus hpc]
  simp [mapBuild, activationBuild, ha, hb, hc, reduceCompose]

/-- Claim C1: for registered names `a`, `b` (and `c`) and every input `x`,
`build("a+b")(x) = build(b)(build(a)(x))` — the left operand of a `+`-joined
spec is applied first — and `build("a+b+c")(x)` applies `a`, then `b`, then
`c`. -/
theorem build_plus_composes {a b c : PyString} {ka kb kc : ActKind}
    (ha : lookup a = some ka) (hb : lookup b = some kb) (hc : lookup c = some kc)
    (x : Tensor) :
    buildEval (a ++ '+' :: b) x = (buildEval a x).bind (buildEval b) ∧
    buildEval (a ++ '+' :: (b ++ '+' :: c)) x =
      ((buildEval a x).bind (buildEval b)).bind (buildEval c) := by
  have h2 := buildStr_two ha hb ([])
  have h3 := buildStr_three ha hb hc ([])
  have hsa := buildStr_single ha ([])
  have hsb := buildStr_single hb ([])
  have hsc := buildStr_single hc ([])
  constructor
  · simp [buildEval, h2, hsa, hsb, Callable.eval]
  · simp [buildEval, h3, hsa, hsb, hsc, Callable.eval]

/-- Witness for C1 at `a = "relu"`, `b = "tanh"`, `c = "softmax"`,
`x = [1, -2]`. -/
theorem build_plus_composes_witness :
    buildEval (chars "relu" ++ '+' :: chars "tanh") [1, -2] =
      (buildEval (chars "relu") [1, -2]).bind (buildEval (chars "tanh")) ∧
    buildEval (chars "relu" ++ '+' :: (chars "tanh" ++ '+' :: chars "softmax")) [1, -2] =
      ((buildEval (chars "relu") [1, -2]).bind (buildEval (chars "tanh"))).bind
        (buildEval (chars "softmax")) :=
  build_plus_composes
    (show lookup (chars "relu") = some ActKind.relu by decide)
    (show lookup (chars "tanh") = some ActKind.tanh by decide)
    (show lookup (chars "softmax") = some ActKind.softmax by decide)
    [1, -2]

/-- Claim C2 counterexample: composing `"relu"` and `"tanh"` yields a value
whose `name` attribute is the one-element *list* `['tanh(relu)']` (assigned by
`compose` as `c.name = ['%s(%s)' % (b.name, a.name)]`), not the plain string
`"tanh(relu)"` the claim describes. -/
theorem composed_name_is_list :
    buildStr (chars "relu+tanh") [] = .ok (.comp (.act reluAct) (.act tanhAct)) ∧
    (Callable.comp (.act reluAct) (.act tanhAct)).pyname = .l [chars "tanh(relu)"] ∧
    (Callable.comp (.act reluAct) (.act tanhAct)).pyname ≠ .s (chars "tanh(relu)") :=
  ⟨by decide, by decide, by decide⟩

/-- Claim C2 (amended): for registered names `a`, `b`, the value built from
`"a+b"` has as `name` attribute the one-element list `["<b.name>(<a.name>)"]`;
for `"a+b+c"` the outer compose formats the inner list through Python `repr`,
so the name is the one-element list `["<c.name>([", quote, inner, quote, "])"]`
— brackets and quotes included — rather than a purely name-nested label. -/
theorem composed_name_amended {a b c : PyString} {ka kb kc : ActKind}
    (ha : lookup a = some ka) (hb : lookup b = some kb) (hc : lookup c = some kc) :
    (∃ g, buildStr (a ++ '+' :: b) [] = .ok g ∧
      g.pyname = .l [b ++ '(' :: a ++ [')']]) ∧
    (∃ g, buildStr (a ++ '+' :: (b ++ '+' :: c)) [] = .ok g ∧
      g.pyname = .l [c ++ '(' :: listRepr [b ++ '(' :: a ++ [')']] ++ [')']]) := by
  refine ⟨⟨_, buildStr_two ha hb [], ?_⟩, ⟨_, buildStr_three ha hb hc [], ?_⟩⟩
  · simp [Callable.pyname, pyFormat]
  · simp [Callable.pyname, pyFormat]

/-- Witness for the amended C2 at `a = "relu"`, `b = "tanh"`, `c = "softmax"`. -/
theorem composed_name_amended_witness :
    (∃ g, buildStr (chars "relu" ++ '+' :: chars "tanh") [] = .ok g ∧
      g.pyname = .l [chars "tanh" ++ '(' :: chars "relu" ++ [')']]) ∧
    (∃ g, buildStr (chars "relu" ++ '+' :: (chars "tanh" ++ '+' :: chars "softmax")) []
        = .ok g ∧
      g.pyname = .l [chars "softmax" ++ '(' ::
        listRepr [chars "tanh" ++ '(' :: chars "relu" ++ [')']] ++ [')']]) :=
  composed_name_amended
    (show lookup (chars "relu") = some ActKind.relu by decide)
    (show lookup (chars "tanh") = some ActKind.tanh by decide)
    (show lookup (chars "softmax") = some ActKind.softmax by decide)

/-- Claim C3 counterexample: `build("relu++tanh")` does not fail with
`EmptySegmentError`; the empty middle segment is simply looked up in the
registry and the failure is `UnknownActivationError` with the empty string as
key. -/
theorem empty_segment_counterexample :
    buildStr (chars "relu++tanh") [] = .error (.unknownActivation []) ∧
    BuildError.unknownActivation [] ≠ BuildError.emptySegment :=
  ⟨by decide, by decide⟩

/-- Claim C3 (amended): a `+`-joined spec containing an empty segment makes
`build` fail, but with `UnknownActivationError` on an unregistered (possibly
empty) segment name — no distinct `EmptySegmentError` exists in the code. -/
theorem empty_segment_amended {s : PyString} (hplus : '+' ∈ s) (hempty : [] ∈ splitP s)
    (kw : Kwargs) :
    ∃ k, buildStr s kw = .error (.unknownActivation k) ∧ lookup k = none := by
  have h : ∃ n ∈ splitP s, lookup n = none := ⟨[], hempty, by decide⟩
  rcases mapBuild_err h with ⟨k, hk, hlk⟩
  refine ⟨k, ?_, hlk⟩
  unfold buildStr
  rw [if_pos hplus, hk]

/-- Witness for the amended C3 at the spec `"relu++tanh"`. -/
theorem empty_segment_amended_witness :
    ∃ k, buildStr (chars "relu++tanh") [] = .error (.unknownActivation k) ∧
      lookup k = none :=
  empty_segment_amended (by decide) (by decide) []

/-- Claim C4: keyword configuration is forwarded only for a single non-compound
name; when the spec contains `'+'`, the result of `build` does not depend on
the supplied kwargs at all, and every sub-activation inside it was constructed
with empty keyword configuration. -/
theorem compound_ignores_kwargs {s : PyString} (hplus : '+' ∈ s) :
    (∀ kw kw2 : Kwargs, buildStr s kw = buildStr s kw2) ∧
    (∀ (kw : Kwargs) (g : Callable), buildStr s kw = .ok g → g.noConfig = true) := by
  constructor
  · intro kw kw2
    unfold buildStr
    rw [if_pos hplus, if_pos hplus]
  · intro kw g hg
    unfold buildStr at hg
    rw [if_pos hplus] at hg
    cases hm : mapBuild (splitP s) with
    | error e => rw [hm] at hg; exact absurd hg (by simp)
    | ok as =>
      rw [hm] at hg
      cases as with
      | nil => exact absurd hg (by simp)
      | cons a rest =>
        simp only [Except.ok.injEq] at hg
        have hkw := mapBuild_kwargs hm
        rw [← hg]
        apply reduceCompose_noConfig
        · simp [Callable.noConfig, hkw a (by simp)]
        · intro d hd
          rcases List.mem_map.mp hd with ⟨a2, ha2, rfl⟩
          simp [Callable.noConfig, hkw a2 (by simp [ha2])]

/-- Witness for C4 at the spec `"relu+tanh"` with kwargs `{"alpha": "1"}`. -/
theorem compound_ignores_kwargs_witness :
    buildStr (chars "relu+tanh") [(chars "alpha", chars "1")] =
      buildStr (chars "relu+tanh") [] ∧
    (Callable.comp (.act reluAct) (.act tanhAct)).noConfig = true :=
  ⟨(compound_ignores_kwargs (show '+' ∈ chars "relu+tanh" by decide)).1
     [(chars "alpha", chars "1")] [],
   (compound_ignores_kwargs (show '+' ∈ chars "relu+tanh" by decide)).2
     [(chars "alpha", chars "1")] (.comp (.act reluAct) (.act tanhAct)) (by decide)⟩

/-- Claim C5: whenever some segment of the spec (the whole string for a single
name, each `'+'`-split part for a composite) is not a registered key, `build`
propagates an `UnknownActivationError` carrying an unregistered key to the
caller. -/
theorem unknown_name_errors {s : PyString} (kw : Kwargs)
    (h : ∃ n ∈ segmentsOf s, lookup n = none) :
    ∃ k, buildStr s kw = .error (.unknownActivation k) ∧ lookup k = none := by
  by_cases hplus : '+' ∈ s
  · rw [segmentsOf, if_pos hplus] at h
    rcases mapBuild_err h with ⟨k, hk, hlk⟩
    refine ⟨k, ?_, hlk⟩
    unfold buildStr
    rw [if_pos hplus, hk]
  · rw [segmentsOf, if_neg hplus] at h
    rcases h with ⟨n, hn, hln⟩
    rcases List.mem_singleton.mp hn with rfl
    refine ⟨n, ?_, hln⟩
    unfold buildStr
    rw [if_neg hplus]
    simp [activationBuild, hln]

/-- Witness for C5 at the composite spec `"relu+bogus"` and at the single
unknown name `"bogus"`. -/
theorem unknown_name_errors_witness :
    ∃ k, buildStr (chars "relu+bogus") [] = .error (.unknownActivation k) ∧
      lookup k = none :=
  unknown_name_errors [] (by decide)

/-- Claim C6: `build` applied to an already-constructed `Activation` instance
returns exactly that instance, with its `name`, `kwargs` and `params` fields
unmodified. -/
theorem build_instance_identity (a : Activation) (kw : Kwargs) :
    build (.inst a) kw = .ok (.act a) ∧
    (Callable.act a).pyname = .s a.name ∧
    (Callable.act a).kwargsAttr = some a.kwargs ∧
    (Callable.act a).paramsAttr = some a.params :=
  ⟨rfl, rfl, rfl, rfl⟩

/-- Claim C7: for every registered canonical name or alias `k`, `build(k)`
returns an `Activation` instance whose `name` attribute is the key exactly as
supplied, and that instance is callable (its evaluation is the looked-up
variant's transform). -/
theorem build_registered_name {k : PyString} {kind : ActKind}
    (hk : lookup k = some kind) (kw : Kwargs) :
    buildStr k kw = .ok (.act { kind := kind, name := k, kwargs := kw, params := [] }) ∧
    ∀ x : Tensor,
      (Callable.act { kind := kind, name := k, kwargs := kw, params := [] }).eval x =
        kind.eval x :=
  ⟨buildStr_single hk kw, fun _ => rfl⟩

/-- Witness for C7 at the alias `k = "rect:min"` (which resolves to `Relu`). -/
theorem build_registered_name_witness :
    buildStr (chars "rect:min") [] =
      .ok (.act { kind := .relu, name := chars "rect:min", kwargs := [], params := [] }) ∧
    ∀ x : Tensor,
      (Callable.act
          { kind := ActKind.relu, name := chars "rect:min", kwargs := [], params := [] }).eval x =
        ActKind.relu.eval x :=
  build_registered_name (show lookup (chars "rect:min") = some ActKind.relu by decide) []

theorem relu_pointwise (v : ℝ) : (v + |v|) / 2 = max v 0 := by
  rcases le_total v 0 with h | h
  · rw [abs_of_nonpos h, max_eq_right h]
    ring
  · rw [abs_of_nonneg h, max_eq_left h]
    ring

theorem trelu_pointwise (v : ℝ) : (1 + |v| - |v - 1|) / 2 = min (max v 0) 1 := by
  rcases le_total v 0 with h0 | h0
  · rw [abs_of_nonpos h0, abs_of_nonpos (by linarith), max_eq_right h0,
      min_eq_left (by norm_num : (0 : ℝ) ≤ 1)]
    ring
  · rw [abs_of_nonneg h0, max_eq_left h0]
    rcases le_total v 1 with h1 | h1
    · rw [abs_of_nonpos (by linarith), min_eq_left h1]
      ring
    · rw [abs_of_nonneg (by linarith), min_eq_right h1]
      ring

/-- Claim C8: `relu` computes `(x + |x|) / 2`, which is `max(x, 0)` elementwise,
and in particular `build("relu")` maps `[-2, -1, 0, 1, 2]` to `[0, 0, 0, 1, 2]`;
`truncatedrelu` computes `(1 + |x| - |x - 1|) / 2`, which is `clamp(x, 0, 1)`
elementwise. -/
theorem relu_formulas :
    (∀ x : Tensor, ActKind.relu.eval x = x.map (fun v => max v 0)) ∧
    (∀ x : Tensor, ActKind.truncatedrelu.eval x = x.map (fun v => min (max v 0) 1)) ∧
    buildEval (chars "relu") [-2, -1, 0, 1, 2] = some [0, 0, 0, 1, 2] := by
  refine ⟨fun x => ?_, fun x => ?_, ?_⟩
  · simp only [ActKind.eval]
    rw [show (fun v : ℝ => (v + |v|) / 2) = fun v => max v 0 from funext relu_pointwise]
  · simp only [ActKind.eval]
    rw [show (fun v : ℝ => (1 + |v| - |v - 1|) / 2) = fun v => min (max v 0) 1 from
      funext trelu_pointwise]
  · have hb : buildStr (chars "relu") [] = .ok (.act reluAct) := by decide
    simp only [buildEval, hb, Callable.eval, reluAct, ActKind.eval, List.map,
      abs_neg, abs_two, abs_one, abs_zero]
    norm_num

/-- Claim C9: the source's `softmax` computes exactly the spec formula
`exp(x - max(x, axis=-1)) / sum(exp(x - max(x, axis=-1)), axis=-1)` with
`keepdims` semantics, and every activation variant's output has the same shape
(here: length of the feature row) as its input. -/
theorem softmax_formula_shape :
    (∀ x : Tensor, ActKind.softmax.eval x = softmaxSpec x) ∧
    (∀ (k : ActKind) (x : Tensor), (k.eval x).length = x.length) := by
  constructor
  · intro x
    rfl
  · intro k x
    cases k <;> simp [ActKind.eval]

/-- Claim C10: a successfully built `'+'`-joined composite is a bare function
value: reading `.params` or `.kwargs` on it fails (modelled as `none`), whereas
a single-name build carries `params = []`; and `build` applied to an existing
`Activation` instance silently discards any supplied kwargs. -/
theorem composite_bare_function {s n : PyString} {kw kw2 : Kwargs} {g g2 : Callable}
    {kind : ActKind} (a : Activation)
    (hplus : '+' ∈ s) (hok : buildStr s kw = .ok g)
    (hn : lookup n = some kind) (hok2 : buildStr n kw2 = .ok g2) :
    g.paramsAttr = none ∧ g.kwargsAttr = none ∧
    g2.paramsAttr = some [] ∧
    build (.inst a) kw = build (.inst a) [] := by
  have hattrs : g.paramsAttr = none ∧ g.kwargsAttr = none := by
    unfold buildStr at hok
    rw [if_pos hplus] at hok
    cases hm : mapBuild (splitP s) with
    | error e => rw [hm] at hok; exact absurd hok (by simp)
    | ok as =>
      rw [hm] at hok
      cases as with
      | nil => exact absurd hok (by simp)
      | cons a0 rest =>
        have h2 : 2 ≤ (a0 :: rest).length := by
          rw [mapBuild_length hm]
          exact splitP_two_le hplus
        cases rest with
        | nil => simp at h2
        | cons r0 rr =>
          simp only [Except.ok.injEq] at hok
          rw [← hok]
          have : reduceCompose (.act a0) ((r0 :: rr).map Callable.act) =
              reduceCompose (.comp (.act a0) (.act r0)) (rr.map Callable.act) := by
            simp [reduceCompose, List.foldl]
          rw [this]
          exact reduceCompose_comp_attrs (rr.map Callable.act) (.act a0) (.act r0)
  have hg2 : g2 = .act { kind := kind, name := n, kwargs := kw2, params := [] } := by
    have := buildStr_single hn kw2
    rw [this] at hok2
    exact (Except.ok.injEq _ _).mp hok2.symm
  exact ⟨hattrs.1, hattrs.2, by rw [hg2]; rfl, rfl⟩

/-- Witness for C10 at the composite `"relu+tanh"`, the single name `"tanh"`,
and an arbitrary instance. -/
theorem composite_bare_function_witness :
    (Callable.comp (.act reluAct) (.act tanhAct)).paramsAttr = none ∧
    (Callable.comp (.act reluAct) (.act tanhAct)).kwargsAttr = none ∧
    (Callable.act tanhAct).paramsAttr = some [] ∧
    build (.inst softmaxAct) [(chars "alpha", chars "1")] = build (.inst softmaxAct) [] :=
  composite_bare_function softmaxAct
    (show '+' ∈ chars "relu+tanh" by decide)
    (show buildStr (chars "relu+tanh") [(chars "alpha", chars "1")] =
      .ok (.comp (.act reluAct) (.act tanhAct)) by decide)
    (show lookup (chars "tanh") = some ActKind.tanh by decide)
    (show buildStr (chars "tanh") [] = .ok (.act tanhAct) by decide)
